import Mathlib

/-!
Verification of the chunked transcription pipeline (scheduler, idempotency
ledger, daily merge writer, footage-range discoverer) against its
natural-language specification.

The embedding is shallow: every definition below is a direct translation of a
function from the Python sources (`download_scheduler.py`,
`transcript_merger.py`, `footage_discovery.py`).  Timezone-aware datetimes are
modelled as absolute times in integer seconds (`Int`); one hour is 3600 units.
All claimed properties are independent of the sub-second resolution of the
originals.  Python strings are modelled as `List Char`.
-/

namespace UbvTranscribe

/-! ## ChunkPlanner: `generate_hourly_chunks` (download_scheduler.py)

The Python `while current < end_date` loop is embedded with explicit fuel;
`(e - s).toNat` iterations always suffice because each step advances
`current` by `min 3600 (e - current) ≥ 1` time units. -/

def hourlyAux (e : Int) : Nat → Int → List (Int × Int)
  | 0, _ => []
  | fuel + 1, cur =>
    if cur < e then
      (cur, min (cur + 3600) e) :: hourlyAux e fuel (min (cur + 3600) e)
    else []

/-- `generate_hourly_chunks(start_date, end_date)`: if `start >= end` return
`[]`; otherwise walk forward in 1-hour steps, each chunk ending at
`min (current + 1h) end`. -/
def generateHourlyChunks (s e : Int) : List (Int × Int) :=
  if s ≥ e then []
  else hourlyAux e (e - s).toNat s

lemma hourlyAux_spec (e : Int) :
    ∀ (fuel : Nat) (cur : Int), cur < e → e - cur ≤ fuel →
      hourlyAux e fuel cur ≠ [] ∧
      (hourlyAux e fuel cur).head? = some (cur, min (cur + 3600) e) ∧
      (∀ p ∈ hourlyAux e fuel cur, p.2 = min (p.1 + 3600) e) ∧
      (hourlyAux e fuel cur).Chain' (fun p q => q.1 = p.2) ∧
      ((hourlyAux e fuel cur).getLast?.map Prod.snd = some e) := by
  intro fuel
  induction fuel with
  | zero =>
    intro cur hlt hfuel
    exfalso; omega
  | succ n ih =>
    intro cur hlt hfuel
    have hstep : hourlyAux e (n + 1) cur =
        (cur, min (cur + 3600) e) :: hourlyAux e n (min (cur + 3600) e) := by
      simp [hourlyAux, hlt]
    by_cases hdone : min (cur + 3600) e < e
    · -- the loop continues: the next start is strictly below `e`
      have hmin : min (cur + 3600) e = cur + 3600 := by omega
      have hfuel' : e - (cur + 3600) ≤ n := by omega
      obtain ⟨hne, hhead, hends, hchain, hlast⟩ :=
        ih (min (cur + 3600) e) hdone (by rw [hmin]; exact hfuel')
      refine ⟨by simp [hstep], by simp [hstep], ?_, ?_, ?_⟩
      · intro p hp
        rw [hstep] at hp
        rcases List.mem_cons.mp hp with h | h
        · simp [h]
        · exact hends p h
      · rw [hstep]
        rcases hrec : hourlyAux e n (min (cur + 3600) e) with _ | ⟨q, qs⟩
        · simp
        · rw [hrec] at hhead hchain
          refine List.Chain'.cons ?_ hchain
          simpa using (congrArg (Option.map Prod.fst) hhead.symm).symm
      · rw [hstep]
        rcases hrec : hourlyAux e n (min (cur + 3600) e) with _ | ⟨q, qs⟩
        · exact absurd hrec hne
        · rw [hrec] at hlast
          rw [List.getLast?_cons_cons]
          exact hlast
    · -- final chunk: its end is exactly `e`
      have hmin : min (cur + 3600) e = e := by omega
      have hrec : hourlyAux e n (min (cur + 3600) e) = [] := by
        rw [hmin]
        cases n <;> simp [hourlyAux]
      rw [hstep, hrec]
      refine ⟨by simp, by simp, ?_, by simp, by simp [hmin]⟩
      intro p hp
      simp at hp
      simp [hp]

/-- C4: `generate_hourly_chunks` returns `[]` for `start ≥ end`; otherwise a
non-empty list of consecutive intervals starting at `start`, each interval's
end equal to `min (start + 1h) end`, adjacent intervals sharing endpoints, and
the final interval ending exactly at `end` (so the intervals exactly cover
`[start, end)` with every interval but possibly the last one hour wide). -/
theorem generate_hourly_chunks_spec (s e : Int) :
    (s ≥ e → generateHourlyChunks s e = []) ∧
    (s < e →
      generateHourlyChunks s e ≠ [] ∧
      (generateHourlyChunks s e).head? = some (s, min (s + 3600) e) ∧
      (∀ p ∈ generateHourlyChunks s e, p.2 = min (p.1 + 3600) e) ∧
      (generateHourlyChunks s e).Chain' (fun p q => q.1 = p.2) ∧
      ((generateHourlyChunks s e).getLast?.map Prod.snd = some e)) := by
  constructor
  · intro h
    simp [generateHourlyChunks, h]
  · intro h
    have hne : ¬ s ≥ e := by omega
    have : generateHourlyChunks s e = hourlyAux e (e - s).toNat s := by
      simp [generateHourlyChunks, hne]
    rw [this]
    exact hourlyAux_spec e (e - s).toNat s h (by omega)

/-- Witness for C4 at the concrete range `[0, 5400)` (an hour and a half):
two chunks, the second a half hour wide. -/
theorem generate_hourly_chunks_spec_witness :
    generateHourlyChunks 0 5400 ≠ [] ∧
    (generateHourlyChunks 0 5400).head? = some (0, min (0 + 3600) 5400) ∧
    (∀ p ∈ generateHourlyChunks 0 5400, p.2 = min (p.1 + 3600) 5400) ∧
    (generateHourlyChunks 0 5400).Chain' (fun p q => q.1 = p.2) ∧
    ((generateHourlyChunks 0 5400).getLast?.map Prod.snd = some 5400) :=
  (generate_hourly_chunks_spec 0 5400).2 (by decide)

/-! ## RetryingChunkProcessor: `download_with_retry` (download_scheduler.py)

Python strings are modelled as `List Char`.  The per-attempt pipeline
(fetch → convert → transcribe) is driven by a `script` assigning each attempt
number its outcome: a failure in one of the three stages (carrying the
exception's message) or full success.  The intermediate artifacts each stage
leaves on disk (fetched video, converted WAV, transcript text file) are
tracked in `Artifacts`; `removedArtifacts` records every file removal the
function performs (the source performs none — WAV files live in a shared temp
directory deleted only by an `atexit` hook in transcoder.py).  Backoff floats
are modelled as `ℚ`; the values involved (powers of two, 100.0, 300.0) are
exact in both representations. -/

abbrev Str := List Char

/-- `str.lower()` (ASCII range; the rate-limit vocabulary is pure ASCII). -/
def pyLower (s : Str) : Str := s.map Char.toLower

/-- `RATE_LIMIT_KEYWORDS = ['429', 'too many requests', 'rate limit', 'throttle']`. -/
def RATE_LIMIT_KEYWORDS : List Str :=
  ["429".toList, "too many requests".toList, "rate limit".toList, "throttle".toList]

/-- Python's substring test `needle in hay`. -/
def hasSubstr (needle : Str) : Str → Bool
  | [] => needle.isEmpty
  | c :: rest => needle.isPrefixOf (c :: rest) || hasSubstr needle rest

/-- `any(keyword in str(e).lower() for keyword in RATE_LIMIT_KEYWORDS)`. -/
def isRateLimit (msg : Str) : Bool :=
  RATE_LIMIT_KEYWORDS.any (fun kw => hasSubstr kw (pyLower msg))

/-- Outcome of one attempt of the fetch → convert → transcribe pipeline. -/
inductive AttemptOutcome where
  | fetchFail (msg : Str)
  | convertFail (msg : Str)
  | transcribeFail (msg : Str)
  | allOk
deriving DecidableEq

/-- The exception message an attempt raises, if any. -/
def AttemptOutcome.errMsg : AttemptOutcome → Option Str
  | .fetchFail m => some m
  | .convertFail m => some m
  | .transcribeFail m => some m
  | .allOk => none

/-- Which intermediate artifacts exist on disk. -/
structure Artifacts where
  video : Bool := false
  wav : Bool := false
  transcriptTxt : Bool := false
deriving DecidableEq

deriving instance DecidableEq for Except

/-- Observable outcome of a `download_with_retry` call: its return value, the
sequence of `time.sleep` durations, the artifacts left on disk, the file
removals performed, and the merge calls made (with the outcome of the merge,
which in the source may raise without affecting the return value). -/
structure RunResult where
  result : Option Str
  sleeps : List ℚ
  arts : Artifacts
  removedArtifacts : List Str
  mergeCalls : Nat
  mergeOutcome : Option (Except Str Bool)
deriving DecidableEq

/-- `CHUNK_SKIPPED = "skipped"` sentinel. -/
def CHUNK_SKIPPED : Str := "skipped".toList

/-- The transcript text file path returned on success (`<output_base>.txt`). -/
def transcriptFilePath : Str := "transcript.txt".toList

/-- The sleep duration computed for a retried failing attempt: rate-limit
errors use `min(backoff * 2, max_backoff)`, others `min(backoff, max_backoff)`. -/
def backoffWait (maxB : ℚ) (msg : Str) (backoff : ℚ) : ℚ :=
  if isRateLimit msg then min (backoff * 2) maxB else min backoff maxB

/-- The `for attempt in range(max_retries + 1)` loop: fuel starts at
`max_retries + 1`; the fuel-0 case is the unreachable trailing `return None`. -/
def downloadWithRetryAux (script : Nat → AttemptOutcome) (mergeRes : Except Str Bool)
    (useMergeDir : Bool) (maxRetries : Nat) (maxB : ℚ) :
    Nat → Nat → ℚ → Artifacts → RunResult
  | 0, _, _, arts =>
    { result := none, sleeps := [], arts := arts, removedArtifacts := [],
      mergeCalls := 0, mergeOutcome := none }
  | fuel + 1, attempt, backoff, arts =>
    match script attempt with
    | .fetchFail msg =>
      if attempt < maxRetries then
        let r := downloadWithRetryAux script mergeRes useMergeDir maxRetries maxB
          fuel (attempt + 1) (backoff * 2) arts
        { r with sleeps := backoffWait maxB msg backoff :: r.sleeps }
      else
        { result := none, sleeps := [], arts := arts, removedArtifacts := [],
          mergeCalls := 0, mergeOutcome := none }
    | .convertFail msg =>
      if attempt < maxRetries then
        let r := downloadWithRetryAux script mergeRes useMergeDir maxRetries maxB
          fuel (attempt + 1) (backoff * 2) { arts with video := true }
        { r with sleeps := backoffWait maxB msg backoff :: r.sleeps }
      else
        { result := none, sleeps := [], arts := { arts with video := true },
          removedArtifacts := [], mergeCalls := 0, mergeOutcome := none }
    | .transcribeFail msg =>
      if attempt < maxRetries then
        let r := downloadWithRetryAux script mergeRes useMergeDir maxRetries maxB
          fuel (attempt + 1) (backoff * 2) { arts with video := true, wav := true }
        { r with sleeps := backoffWait maxB msg backoff :: r.sleeps }
      else
        { result := none, sleeps := [],
          arts := { arts with video := true, wav := true },
          removedArtifacts := [], mergeCalls := 0, mergeOutcome := none }
    | .allOk =>
      { result := some transcriptFilePath
        sleeps := []
        arts := { arts with video := true, wav := true, transcriptTxt := true }
        removedArtifacts := []
        mergeCalls := if useMergeDir then 1 else 0
        mergeOutcome := if useMergeDir then some mergeRes else none }

/-- `download_with_retry`: the idempotency gate (when a transcripts directory is
configured) returns the `CHUNK_SKIPPED` sentinel; otherwise the attempt loop
runs.  A merge failure after a successful transcribe is caught and logged; the
transcript path is returned regardless. -/
def downloadWithRetry (alreadyProcessed : Bool) (script : Nat → AttemptOutcome)
    (mergeRes : Except Str Bool) (useMergeDir : Bool) (maxRetries : Nat)
    (initialBackoff maxB : ℚ) : RunResult :=
  if useMergeDir && alreadyProcessed then
    { result := some CHUNK_SKIPPED, sleeps := [], arts := {}, removedArtifacts := [],
      mergeCalls := 0, mergeOutcome := none }
  else
    downloadWithRetryAux script mergeRes useMergeDir maxRetries maxB
      (maxRetries + 1) 0 initialBackoff {}

lemma downloadWithRetryAux_sleeps_get (script : Nat → AttemptOutcome)
    (mergeRes : Except Str Bool) (useMergeDir : Bool) (maxRetries : Nat) (maxB : ℚ) :
    ∀ (k fuel attempt : Nat) (backoff : ℚ) (arts : Artifacts),
      (∀ i, i ≤ k → ((script (attempt + i)).errMsg).isSome) →
      attempt + k < maxRetries →
      maxRetries + 1 ≤ fuel + attempt →
      (downloadWithRetryAux script mergeRes useMergeDir maxRetries maxB
        fuel attempt backoff arts).sleeps.get? k =
      some (backoffWait maxB (((script (attempt + k)).errMsg).getD [])
        (backoff * 2 ^ k)) := by
  intro k
  induction k with
  | zero =>
    intro fuel attempt backoff arts hfail hlt hfuel
    obtain ⟨f, rfl⟩ : ∃ f, fuel = f + 1 := ⟨fuel - 1, by omega⟩
    have h0 := hfail 0 (by omega)
    rw [Nat.add_zero] at h0 ⊢
    have hretry : attempt < maxRetries := by omega
    rcases hs : script attempt with msg | msg | msg | _
    · simp [downloadWithRetryAux, hs, hretry, AttemptOutcome.errMsg]
    · simp [downloadWithRetryAux, hs, hretry, AttemptOutcome.errMsg]
    · simp [downloadWithRetryAux, hs, hretry, AttemptOutcome.errMsg]
    · rw [hs] at h0
      simp [AttemptOutcome.errMsg] at h0
  | succ n ih =>
    intro fuel attempt backoff arts hfail hlt hfuel
    obtain ⟨f, rfl⟩ : ∃ f, fuel = f + 1 := ⟨fuel - 1, by omega⟩
    have h0 := hfail 0 (by omega)
    have hretry : attempt < maxRetries := by omega
    have hrec : ∀ arts', (downloadWithRetryAux script mergeRes useMergeDir maxRetries maxB
        f (attempt + 1) (backoff * 2) arts').sleeps.get? n =
        some (backoffWait maxB (((script (attempt + 1 + n)).errMsg).getD [])
          ((backoff * 2) * 2 ^ n)) := by
      intro arts'
      exact ih f (attempt + 1) (backoff * 2) arts'
        (fun i hi => by
          have := hfail (i + 1) (by omega)
          rwa [show attempt + (i + 1) = attempt + 1 + i by omega] at this)
        (by omega) (by omega)
    have harg : attempt + 1 + n = attempt + (n + 1) := by omega
    have hpow : (backoff * 2) * 2 ^ n = backoff * 2 ^ (n + 1) := by ring
    rcases hs : script attempt with msg | msg | msg | _
    · simp only [downloadWithRetryAux, hs, hretry, if_true, List.get?_cons_succ]
      rw [hrec, harg, hpow]
    · simp only [downloadWithRetryAux, hs, hretry, if_true, List.get?_cons_succ]
      rw [hrec, harg, hpow]
    · simp only [downloadWithRetryAux, hs, hretry, if_true, List.get?_cons_succ]
      rw [hrec, harg, hpow]
    · rw [show attempt = attempt + 0 by omega] at hs
      rw [hs] at h0
      simp [AttemptOutcome.errMsg] at h0

lemma downloadWithRetryAux_success (script : Nat → AttemptOutcome)
    (mergeRes : Except Str Bool) (maxRetries : Nat) (maxB : ℚ) :
    ∀ (k fuel attempt : Nat) (backoff : ℚ) (arts : Artifacts),
      (∀ i, i < k → ((script (attempt + i)).errMsg).isSome) →
      script (attempt + k) = .allOk →
      attempt + k ≤ maxRetries →
      maxRetries + 1 ≤ fuel + attempt →
      (downloadWithRetryAux script mergeRes true maxRetries maxB
        fuel attempt backoff arts).result = some transcriptFilePath ∧
      (downloadWithRetryAux script mergeRes true maxRetries maxB
        fuel attempt backoff arts).sleeps.length = k ∧
      (downloadWithRetryAux script mergeRes true maxRetries maxB
        fuel attempt backoff arts).mergeCalls = 1 ∧
      (downloadWithRetryAux script mergeRes true maxRetries maxB
        fuel attempt backoff arts).mergeOutcome = some mergeRes := by
  intro k
  induction k with
  | zero =>
    intro fuel attempt backoff arts _ hok hle hfuel
    obtain ⟨f, rfl⟩ : ∃ f, fuel = f + 1 := ⟨fuel - 1, by omega⟩
    rw [Nat.add_zero] at hok
    simp [downloadWithRetryAux, hok]
  | succ n ih =>
    intro fuel attempt backoff arts hfail hok hle hfuel
    obtain ⟨f, rfl⟩ : ∃ f, fuel = f + 1 := ⟨fuel - 1, by omega⟩
    have h0 := hfail 0 (by omega)
    rw [Nat.add_zero] at h0
    have hretry : attempt < maxRetries := by omega
    have hrec := fun arts' => ih f (attempt + 1) (backoff * 2) arts'
      (fun i hi => by
        have := hfail (i + 1) (by omega)
        rwa [show attempt + (i + 1) = attempt + 1 + i by omega] at this)
      (by rwa [show attempt + 1 + n = attempt + (n + 1) by omega])
      (by omega) (by omega)
    rcases hs : script attempt with msg | msg | msg | _
    · obtain ⟨h1, h2, h3, h4⟩ := hrec arts
      simp [downloadWithRetryAux, hs, hretry, h1, h2, h3, h4]
    · obtain ⟨h1, h2, h3, h4⟩ := hrec { arts with video := true }
      simp [downloadWithRetryAux, hs, hretry, h1, h2, h3, h4]
    · obtain ⟨h1, h2, h3, h4⟩ := hrec { arts with video := true, wav := true }
      simp [downloadWithRetryAux, hs, hretry, h1, h2, h3, h4]
    · rw [hs] at h0
      simp [AttemptOutcome.errMsg] at h0

/-- The spec's backoff scenario script: three generic failures, then success. -/
def genericFailScript : Nat → AttemptOutcome :=
  fun i => if i < 3 then .fetchFail "boom".toList else .allOk

/-- C5 (amended): whenever attempts `0..k` all fail and `k < max_retries`, the
`k`-th recorded sleep is `min(b, max_backoff)` for a generic error and
`min(2*b, max_backoff)` for a rate-limit error, where `b = initial_backoff * 2^k`
(the base doubles after every retried attempt regardless of error class); and
with `initial_backoff=1.0, max_backoff=100.0`, three generic failures followed
by success record exactly the sleeps `1.0, 2.0, 4.0`. -/
theorem download_with_retry_backoff :
    (∀ (script : Nat → AttemptOutcome) (mergeRes : Except Str Bool)
      (useMergeDir : Bool) (maxRetries k : Nat) (initB maxB : ℚ),
      (∀ i, i ≤ k → ((script i).errMsg).isSome) → k < maxRetries →
      (downloadWithRetry false script mergeRes useMergeDir maxRetries
        initB maxB).sleeps.get? k =
      some (backoffWait maxB (((script k).errMsg).getD []) (initB * 2 ^ k))) ∧
    (downloadWithRetry false genericFailScript (.ok true) true 5 1 100).sleeps
      = [1, 2, 4] := by
  have hmain : ∀ (script : Nat → AttemptOutcome) (mergeRes : Except Str Bool)
      (useMergeDir : Bool) (maxRetries k : Nat) (initB maxB : ℚ),
      (∀ i, i ≤ k → ((script i).errMsg).isSome) → k < maxRetries →
      (downloadWithRetry false script mergeRes useMergeDir maxRetries
        initB maxB).sleeps.get? k =
      some (backoffWait maxB (((script k).errMsg).getD []) (initB * 2 ^ k)) := by
    intro script mergeRes useMergeDir maxRetries k initB maxB hfail hk
    have := downloadWithRetryAux_sleeps_get script mergeRes useMergeDir
      maxRetries maxB k (maxRetries + 1) 0 initB {}
      (fun i hi => by simpa using hfail i hi) (by omega) (by omega)
    simpa [downloadWithRetry] using this
  refine ⟨hmain, ?_⟩
  have hfails : ∀ i, i ≤ 2 → ((genericFailScript i).errMsg).isSome := by
    intro i hi
    interval_cases i <;> decide
  have hlen := downloadWithRetryAux_success genericFailScript (.ok true) 5 100
    3 6 0 1 {} (fun i hi => by interval_cases i <;> decide) (by decide)
    (by omega) (by omega)
  have hunfold : downloadWithRetry false genericFailScript (.ok true) true 5 1 100 =
      downloadWithRetryAux genericFailScript (.ok true) true 5 100 6 0 1 {} := rfl
  have hboom : isRateLimit "boom".toList = false := by decide
  refine List.ext_get?_iff.mpr ?_
  intro n
  have hwait : ∀ k : Nat, k ≤ 2 →
      backoffWait 100 (((genericFailScript k).errMsg).getD []) (1 * 2 ^ k)
        = (2 : ℚ) ^ k := by
    intro k hk
    have hmsg : ((genericFailScript k).errMsg).getD [] = "boom".toList := by
      interval_cases k <;> decide
    rw [hmsg]
    simp only [backoffWait, hboom, if_false, Bool.false_eq_true, one_mul]
    rw [min_eq_left]
    calc (2 : ℚ) ^ k ≤ 2 ^ 2 := pow_le_pow_right₀ (by norm_num) hk
      _ ≤ 100 := by norm_num
  rcases n with _ | _ | _ | n
  · rw [hmain genericFailScript (.ok true) true 5 0 1 100
      (fun i hi => hfails i (by omega)) (by omega), hwait 0 (by omega)]
    norm_num
  · rw [hmain genericFailScript (.ok true) true 5 1 1 100
      (fun i hi => hfails i (by omega)) (by omega), hwait 1 (by omega)]
    norm_num
  · rw [hmain genericFailScript (.ok true) true 5 2 1 100
      (fun i hi => hfails i (by omega)) (by omega), hwait 2 (by omega)]
    norm_num
  · have h3 : (downloadWithRetry false genericFailScript
        (.ok true) true 5 1 100).sleeps.length = 3 := by
      rw [hunfold]
      exact hlen.2.1
    rw [List.get?_eq_none.mpr (by omega), List.get?_eq_none.mpr (by simp)]

/-- Witness for C5 at a concrete script: first sleep of the `1.0, 2.0, 4.0`
schedule. -/
theorem download_with_retry_backoff_witness :
    (downloadWithRetry false genericFailScript
      (.ok true) true 5 1 100).sleeps.get? 0 =
    some (backoffWait 100 (((genericFailScript 0).errMsg).getD []) (1 * 2 ^ 0)) :=
  download_with_retry_backoff.1 genericFailScript
    (.ok true) true 5 0 1 100 (fun i hi => by interval_cases i <;> decide)
    (by omega)

/-- C5 counterexample: the claim's uncapped `2 × current backoff` for a
rate-limit failure is wrong when it exceeds `max_backoff`: with
`initial_backoff = 200`, `max_backoff = 300` and a rate-limited first attempt,
the code sleeps `min(2*200, 300) = 300`, not `2*200 = 400`. -/
theorem download_with_retry_backoff_counterexample :
    (downloadWithRetry false (fun _ => .fetchFail "429".toList)
      (.ok true) false 1 200 300).sleeps.get? 0 = some 300 ∧
    (300 : ℚ) ≠ 2 * 200 := by
  have hunfold : downloadWithRetry false (fun _ => .fetchFail "429".toList)
      (.ok true) false 1 200 300 =
      downloadWithRetryAux (fun _ => .fetchFail "429".toList) (.ok true)
        false 1 300 2 0 200 {} := rfl
  have h := downloadWithRetryAux_sleeps_get (fun _ => .fetchFail "429".toList)
    (.ok true) false 1 300 0 2 0 200 {} (fun i _ => rfl) (by omega) (by omega)
  have hrate : isRateLimit "429".toList = true := by decide
  rw [hunfold, h]
  refine ⟨?_, by norm_num⟩
  simp only [backoffWait, hrate, if_true, AttemptOutcome.errMsg, Option.getD_some]
  norm_num

/-- C8: if fetch, convert and transcribe all succeed on attempt `k`
(`k ≤ max_retries`, earlier attempts failing), `download_with_retry` returns
the transcript file path even when the merge call fails with an exception; the
merge error triggers no retry (exactly `k` sleeps) and the merge was attempted
exactly once, its failing outcome recorded but ignored. -/
theorem merge_failure_nonfatal (script : Nat → AttemptOutcome) (mergeErr : Str)
    (maxRetries k : Nat) (initB maxB : ℚ)
    (hfail : ∀ i, i < k → ((script i).errMsg).isSome)
    (hok : script k = .allOk) (hk : k ≤ maxRetries) :
    let r := downloadWithRetry false script (.error mergeErr) true maxRetries initB maxB
    r.result = some transcriptFilePath ∧ r.sleeps.length = k ∧
      r.mergeCalls = 1 ∧ r.mergeOutcome = some (.error mergeErr) := by
  have := downloadWithRetryAux_success script (.error mergeErr) maxRetries maxB
    k (maxRetries + 1) 0 initB {} (fun i hi => by simpa using hfail i hi)
    (by simpa using hok) (by omega) (by omega)
  simpa [downloadWithRetry] using this

/-- Witness for C8: one generic failure, then a fully successful attempt whose
merge raises; the transcript path is still returned after exactly one sleep. -/
theorem merge_failure_nonfatal_witness :
    let r := downloadWithRetry false
      (fun i => if i < 1 then .fetchFail "boom".toList else .allOk)
      (.error "merge failed".toList) true 5 1 300
    r.result = some transcriptFilePath ∧ r.sleeps.length = 1 ∧
      r.mergeCalls = 1 ∧ r.mergeOutcome = some (.error "merge failed".toList) :=
  merge_failure_nonfatal
    (fun i => if i < 1 then .fetchFail "boom".toList else .allOk)
    "merge failed".toList 5 1 1 300 (fun i hi => by interval_cases i <;> decide)
    (by decide) (by omega)

/-- C3 (divergence evidence): on the failing input from the repository's own
cleanup tests — a chunk whose fetch, convert, transcribe and merge all
succeed on the first attempt — `download_with_retry` returns the transcript
path but performs no file removal: the fetched video, the converted WAV and
the transcript text file are all still on disk when it returns.  The repo's
tests (`test_cleanup.py`) instead require three `_cleanup_file` calls here,
and no `_cleanup_file` exists in `download_scheduler.py` at all. -/
theorem download_with_retry_no_artifact_cleanup :
    (downloadWithRetry false (fun _ => .allOk) (.ok true) true 5 1 300).result =
      some transcriptFilePath ∧
    (downloadWithRetry false (fun _ => .allOk) (.ok true) true 5 1 300).arts =
      { video := true, wav := true, transcriptTxt := true } ∧
    (downloadWithRetry false (fun _ => .allOk) (.ok true) true 5 1 300).removedArtifacts
      = [] := by
  refine ⟨?_, ?_, ?_⟩ <;> decide

/-! ## SequentialScheduler: `download_footage_sequential` (download_scheduler.py)

Cameras are `(id, name)` pairs.  The per-chunk call to `download_with_retry`
is abstracted as `proc`, returning `None` on exhausted failure and a string
(transcript path or the `CHUNK_SKIPPED` sentinel) otherwise.  Alongside the
statistics dictionary the embedding returns the ordered list of
`(camera, chunk)` invocations of the processor, which the source performs
strictly sequentially. -/

/-- The statistics dictionary returned by `download_footage_sequential`. -/
structure SchedStats where
  totalChunks : Nat
  successfulChunks : Nat
  failedChunks : Nat
  camerasProcessed : Nat
deriving DecidableEq

/-- `download_footage_sequential`: two nested sequential loops over cameras and
hourly chunks; a non-`None` processor result increments `successful_chunks`
(skipped chunks count as successful), `None` increments `failed_chunks`, and
the loop always continues to the next chunk. -/
def downloadFootageSequential (cameras : List (Str × Str)) (startD endD : Int)
    (proc : Str × Str → Int × Int → Option Str) :
    SchedStats × List ((Str × Str) × (Int × Int)) :=
  let chunks := generateHourlyChunks startD endD
  let r := cameras.foldl (fun acc cam =>
    chunks.foldl (fun acc2 ch =>
      match proc cam ch with
      | some _ => (acc2.1 + 1, acc2.2.1, acc2.2.2 ++ [(cam, ch)])
      | none => (acc2.1, acc2.2.1 + 1, acc2.2.2 ++ [(cam, ch)])) acc)
    ((0, 0, []) : Nat × Nat × List ((Str × Str) × (Int × Int)))
  ({ totalChunks := cameras.length * chunks.length,
     successfulChunks := r.1,
     failedChunks := r.2.1,
     camerasProcessed := cameras.length }, r.2.2)

lemma downloadFootageSequential_inner (proc : Str × Str → Int × Int → Option Str)
    (cam : Str × Str) :
    ∀ (chunks : List (Int × Int)) (s f : Nat)
      (inv : List ((Str × Str) × (Int × Int))),
      chunks.foldl (fun acc2 ch =>
        match proc cam ch with
        | some _ => (acc2.1 + 1, acc2.2.1, acc2.2.2 ++ [(cam, ch)])
        | none => (acc2.1, acc2.2.1 + 1, acc2.2.2 ++ [(cam, ch)])) (s, f, inv) =
      (s + chunks.countP (fun ch => (proc cam ch).isSome),
       f + chunks.countP (fun ch => (proc cam ch).isNone),
       inv ++ chunks.map (fun ch => (cam, ch))) := by
  intro chunks
  induction chunks with
  | nil => intro s f inv; simp
  | cons ch rest ih =>
    intro s f inv
    rcases hp : proc cam ch with _ | v
    · simp only [List.foldl_cons, hp, ih, List.countP_cons, List.map_cons, hp]
      simp [hp, Nat.add_comm, Nat.add_assoc, Nat.add_left_comm]
    · simp only [List.foldl_cons, hp, ih, List.countP_cons, List.map_cons, hp]
      simp [hp, Nat.add_comm, Nat.add_assoc, Nat.add_left_comm]

lemma downloadFootageSequential_outer (proc : Str × Str → Int × Int → Option Str)
    (chunks : List (Int × Int)) :
    ∀ (cameras : List (Str × Str)) (s f : Nat)
      (inv : List ((Str × Str) × (Int × Int))),
      cameras.foldl (fun acc cam =>
        chunks.foldl (fun acc2 ch =>
          match proc cam ch with
          | some _ => (acc2.1 + 1, acc2.2.1, acc2.2.2 ++ [(cam, ch)])
          | none => (acc2.1, acc2.2.1 + 1, acc2.2.2 ++ [(cam, ch)])) acc) (s, f, inv) =
      (s + (cameras.flatMap (fun cam => chunks.map (fun ch => (cam, ch)))).countP
        (fun p => (proc p.1 p.2).isSome),
       f + (cameras.flatMap (fun cam => chunks.map (fun ch => (cam, ch)))).countP
        (fun p => (proc p.1 p.2).isNone),
       inv ++ cameras.flatMap (fun cam => chunks.map (fun ch => (cam, ch)))) := by
  intro cameras
  induction cameras with
  | nil => intro s f inv; simp
  | cons cam rest ih =>
    intro s f inv
    have hcount : ∀ (q : (Str × Str) × (Int × Int) → Bool),
        (chunks.map (fun ch => (cam, ch))).countP q =
        chunks.countP (fun ch => q (cam, ch)) := by
      intro q
      rw [List.countP_map]
      rfl
    simp only [List.foldl_cons, downloadFootageSequential_inner, ih,
      List.flatMap_cons, List.countP_append, hcount, List.append_assoc]
    simp only [Prod.ext_iff]
    exact ⟨by omega, by omega, trivial⟩

lemma sum_map_const_nat {α : Type} (l : List α) (n : Nat) :
    (l.map (fun _ => n)).sum = l.length * n := by
  induction l with
  | nil => simp
  | cons a t ih => simp [ih, Nat.succ_mul, Nat.add_comm]

/-- C6: `download_footage_sequential` reports
`total_chunks = |cameras| * |chunks|` and `cameras_processed = |cameras|`;
it invokes the per-chunk processor exactly once per `(camera, chunk)` pair in
order (no early abort), counts every non-`None` result (transcript path or
skipped sentinel) as successful and every `None` as failed, so
`successful + failed = total`; and a range yielding zero chunks produces
all-zero chunk statistics with no processor invocation at all. -/
theorem download_footage_sequential_accounting (cameras : List (Str × Str))
    (startD endD : Int) (proc : Str × Str → Int × Int → Option Str) :
    (downloadFootageSequential cameras startD endD proc).1.totalChunks =
      cameras.length * (generateHourlyChunks startD endD).length ∧
    (downloadFootageSequential cameras startD endD proc).1.camerasProcessed =
      cameras.length ∧
    (downloadFootageSequential cameras startD endD proc).2 =
      cameras.flatMap (fun cam =>
        (generateHourlyChunks startD endD).map (fun ch => (cam, ch))) ∧
    (downloadFootageSequential cameras startD endD proc).1.successfulChunks =
      ((downloadFootageSequential cameras startD endD proc).2).countP
        (fun p => (proc p.1 p.2).isSome) ∧
    (downloadFootageSequential cameras startD endD proc).1.failedChunks =
      ((downloadFootageSequential cameras startD endD proc).2).countP
        (fun p => (proc p.1 p.2).isNone) ∧
    (downloadFootageSequential cameras startD endD proc).1.successfulChunks +
      (downloadFootageSequential cameras startD endD proc).1.failedChunks =
      (downloadFootageSequential cameras startD endD proc).1.totalChunks ∧
    (generateHourlyChunks startD endD = [] →
      (downloadFootageSequential cameras startD endD proc).1 =
        { totalChunks := 0, successfulChunks := 0, failedChunks := 0,
          camerasProcessed := cameras.length } ∧
      (downloadFootageSequential cameras startD endD proc).2 = []) := by
  have hfold := downloadFootageSequential_outer proc
    (generateHourlyChunks startD endD) cameras 0 0 []
  have hunfold : downloadFootageSequential cameras startD endD proc =
      ({ totalChunks := cameras.length * (generateHourlyChunks startD endD).length,
         successfulChunks := (cameras.flatMap (fun cam =>
           (generateHourlyChunks startD endD).map (fun ch => (cam, ch)))).countP
           (fun p => (proc p.1 p.2).isSome),
         failedChunks := (cameras.flatMap (fun cam =>
           (generateHourlyChunks startD endD).map (fun ch => (cam, ch)))).countP
           (fun p => (proc p.1 p.2).isNone),
         camerasProcessed := cameras.length },
       cameras.flatMap (fun cam =>
         (generateHourlyChunks startD endD).map (fun ch => (cam, ch)))) := by
    simp only [downloadFootageSequential, hfold]
    simp
  rw [hunfold]
  refine ⟨rfl, rfl, rfl, rfl, rfl, ?_, ?_⟩
  · have hlen : ∀ l : List ((Str × Str) × (Int × Int)),
        l.countP (fun p => (proc p.1 p.2).isSome) +
        l.countP (fun p => (proc p.1 p.2).isNone) = l.length := by
      intro l
      induction l with
      | nil => simp
      | cons p rest ih =>
        rcases hp : proc p.1 p.2 with _ | v <;>
          (simp [List.countP_cons, hp]; omega)
    rw [hlen]
    simp only [List.length_flatMap, Function.comp_def, List.length_map]
    exact sum_map_const_nat cameras (generateHourlyChunks startD endD).length
  · intro hchunks
    simp [hchunks]

/-- Witness for C6: one camera and an empty range (`start ≥ end`): all-zero
chunk statistics, no processor invocation. -/
theorem download_footage_sequential_accounting_witness :
    (downloadFootageSequential [("cam1".toList, "Front Door".toList)] 5 3
      (fun _ _ => none)).1 =
      { totalChunks := 0, successfulChunks := 0, failedChunks := 0,
        camerasProcessed := 1 } ∧
    (downloadFootageSequential [("cam1".toList, "Front Door".toList)] 5 3
      (fun _ _ => none)).2 = [] :=
  (download_footage_sequential_accounting
    [("cam1".toList, "Front Door".toList)] 5 3
    (fun _ _ => none)).2.2.2.2.2.2 (by decide)

/-! ## FootageRangeDiscoverer: `discover_footage_range` (footage_discovery.py)

Dates are absolute times in integer seconds; `today` is the local midnight the
walk starts from and one calendar day is 86400 units.  A camera's
`recording_start` is `none` when the source reports `datetime.min` (no
recordings); `check_footage_exists` otherwise compares the recording start
against the end of the checked day (timezone conversion preserves the absolute
instant, so the comparison is unchanged).  The per-camera range bookkeeping of
the source is not modelled: no verified claim refers to it.  `daysChecked`
records the source's `days_checked` loop counter, from which the cap warning
(`days_checked >= max_days_back`) is derived. -/

/-- A camera as returned by the lister: id, name, recording-start. -/
structure CameraInfo where
  id : Str
  name : Str
  recordingStart : Option Int

/-- `check_footage_exists`: true iff the camera's recording started before the
end of the checked day (`check_date + 1 day`). -/
def checkFootageExists (cam : CameraInfo) (checkDate : Int) : Bool :=
  match cam.recordingStart with
  | none => false
  | some rs => rs < checkDate + 86400

/-- The per-day scan over all cameras (`any_footage_found`). -/
def anyFootageOn (cams : List CameraInfo) (checkDate : Int) : Bool :=
  cams.any (fun c => checkFootageExists c checkDate)

/-- The `while days_checked < max_days_back` walk: fuel is the remaining
iteration budget `max_days_back - days_checked`; on a footage day the walk
records the day as `earliest_date` and moves one day back, otherwise it
breaks.  Returns (earliest_date, days_checked). -/
def discoverAux (cams : List CameraInfo) : Nat → Int → Nat → Option Int → Option Int × Nat
  | 0, _, daysChecked, earliest => (earliest, daysChecked)
  | fuel + 1, currentDate, daysChecked, earliest =>
    if anyFootageOn cams currentDate then
      discoverAux cams fuel (currentDate - 86400) (daysChecked + 1) (some currentDate)
    else (earliest, daysChecked)

/-- Result dictionary of `discover_footage_range`. -/
structure DiscoverResult where
  earliestDate : Option Int
  latestDate : Option Int
  daysWithFootage : Nat
  capWarning : Bool
  daysChecked : Nat

/-- `discover_footage_range`: empty camera list short-circuits; otherwise walk
backward from today's midnight; `days_with_footage = (latest - earliest).days + 1`
when an earliest date was found, else 0; a warning is logged when
`days_checked >= max_days_back`. -/
def discoverFootageRange (cams : List CameraInfo) (today : Int)
    (maxDaysBack : Nat) : DiscoverResult :=
  if cams.isEmpty then
    { earliestDate := none, latestDate := none, daysWithFootage := 0,
      capWarning := false, daysChecked := 0 }
  else
    let r := discoverAux cams maxDaysBack today 0 none
    { earliestDate := r.1
      latestDate := some today
      daysWithFootage :=
        match r.1 with
        | some ed => ((today - ed) / 86400).toNat + 1
        | none => 0
      capWarning := decide (r.2 ≥ maxDaysBack)
      daysChecked := r.2 }

lemma discoverAux_count_le (cams : List CameraInfo) :
    ∀ (fuel : Nat) (d : Int) (j : Nat) (e : Option Int),
      (discoverAux cams fuel d j e).2 ≤ j + fuel := by
  intro fuel
  induction fuel with
  | zero => intro d j e; simp [discoverAux]
  | succ n ih =>
    intro d j e
    by_cases hf : anyFootageOn cams d
    · simp only [discoverAux, hf, if_true]
      have := ih (d - 86400) (j + 1) (some d)
      omega
    · simp [discoverAux, hf]

lemma discoverAux_run (cams : List CameraInfo) (today : Int) (k : Nat)
    (hk : ∀ i : Nat, i < k → anyFootageOn cams (today - (i : Int) * 86400) = true)
    (hgap : anyFootageOn cams (today - (k : Int) * 86400) = false) :
    ∀ (fuel j : Nat) (e : Option Int), j ≤ k → k - j < fuel →
      discoverAux cams fuel (today - (j : Int) * 86400) j e =
        ((if j = k then e else some (today - ((k - 1 : Nat) : Int) * 86400)), k) := by
  intro fuel
  induction fuel with
  | zero =>
    intro j e hj hf
    exfalso; omega
  | succ n ih =>
    intro j e hj hf
    by_cases hjk : j = k
    · subst hjk
      simp [discoverAux, hgap]
    · have hlt : j < k := by omega
      have hfoot := hk j hlt
      simp only [discoverAux, hfoot, if_true]
      have harg : today - (j : Int) * 86400 - 86400 =
          today - ((j + 1 : Nat) : Int) * 86400 := by
        push_cast
        ring
      rw [harg, ih (j + 1) (some (today - (j : Int) * 86400)) (by omega) (by omega)]
      by_cases hj1 : j + 1 = k
      · have hk1 : (k - 1 : Nat) = j := by omega
        simp [hj1, hjk, hk1]
      · simp [hj1, hjk]

/-- C9: the backward walk stops at the first day with zero cameras reporting
footage; the previous day (the last one with footage) becomes `earliest_date`;
the walk never examines more than `max_days_back` days (`days_checked` is
bounded by the cap, and no cap warning is logged when the stop came from a
footage gap); `days_with_footage = (latest_date - earliest_date).days + 1`,
which equals the number of consecutive recent footage days `k`; in the
scenario of a single camera with footage on exactly the 3 most recent days,
the result is `days_with_footage = 3` with the cap not reached. -/
theorem discover_footage_range_spec :
    (∀ (cams : List CameraInfo) (today : Int) (maxDays : Nat),
      (discoverFootageRange cams today maxDays).daysChecked ≤ maxDays) ∧
    (∀ (cams : List CameraInfo) (today : Int) (maxDays k : Nat),
      cams ≠ [] →
      (∀ i : Nat, i < k → anyFootageOn cams (today - (i : Int) * 86400) = true) →
      anyFootageOn cams (today - (k : Int) * 86400) = false →
      k < maxDays →
      (discoverFootageRange cams today maxDays).earliestDate =
        (if k = 0 then none else some (today - ((k - 1 : Nat) : Int) * 86400)) ∧
      (discoverFootageRange cams today maxDays).latestDate = some today ∧
      (discoverFootageRange cams today maxDays).daysWithFootage = k ∧
      (discoverFootageRange cams today maxDays).capWarning = false) ∧
    ((discoverFootageRange [⟨"c1".toList, "Cam".toList, some (-172800)⟩]
        0 365).daysWithFootage = 3 ∧
     (discoverFootageRange [⟨"c1".toList, "Cam".toList, some (-172800)⟩]
        0 365).capWarning = false) := by
  have hbound : ∀ (cams : List CameraInfo) (today : Int) (maxDays : Nat),
      (discoverFootageRange cams today maxDays).daysChecked ≤ maxDays := by
    intro cams today maxDays
    by_cases hc : cams.isEmpty
    · simp [discoverFootageRange, hc]
    · simp only [discoverFootageRange, hc, if_false, Bool.false_eq_true]
      have := discoverAux_count_le cams maxDays today 0 none
      omega
  have hmain : ∀ (cams : List CameraInfo) (today : Int) (maxDays k : Nat),
      cams ≠ [] →
      (∀ i : Nat, i < k → anyFootageOn cams (today - (i : Int) * 86400) = true) →
      anyFootageOn cams (today - (k : Int) * 86400) = false →
      k < maxDays →
      (discoverFootageRange cams today maxDays).earliestDate =
        (if k = 0 then none else some (today - ((k - 1 : Nat) : Int) * 86400)) ∧
      (discoverFootageRange cams today maxDays).latestDate = some today ∧
      (discoverFootageRange cams today maxDays).daysWithFootage = k ∧
      (discoverFootageRange cams today maxDays).capWarning = false := by
    intro cams today maxDays k hne hk hgap hcap
    have hc : cams.isEmpty = false := by
      cases cams with
      | nil => exact absurd rfl hne
      | cons a t => rfl
    have hrun := discoverAux_run cams today k hk hgap maxDays 0 none
      (by omega) (by omega)
    rw [show today - ((0 : Nat) : Int) * 86400 = today by push_cast; ring] at hrun
    by_cases hk0 : k = 0
    · subst hk0
      refine ⟨?_, ?_, ?_, ?_⟩ <;> simp [discoverFootageRange, hc, hrun] <;> omega
    · have h0k : ¬ (0 = k) := fun h => hk0 h.symm
      have hdiv : ((((k - 1 : Nat) : Int)) * 86400 / 86400).toNat + 1 = k := by
        rw [Int.mul_ediv_cancel _ (by norm_num)]
        omega
      refine ⟨?_, ?_, ?_, ?_⟩ <;>
        simp [discoverFootageRange, hc, hrun, hk0, h0k, hdiv] <;> omega
  refine ⟨hbound, hmain, ?_⟩
  constructor
  · decide
  · decide

/-- Witness for C9 at the 3-recent-days scenario: single camera whose
recording started at day-index 2 before today. -/
theorem discover_footage_range_spec_witness :
    (discoverFootageRange [⟨"c1".toList, "Cam".toList, some (-172800)⟩]
        0 365).earliestDate =
      (if (3 : Nat) = 0 then none
       else some ((0 : Int) - ((3 - 1 : Nat) : Int) * 86400)) ∧
    (discoverFootageRange [⟨"c1".toList, "Cam".toList, some (-172800)⟩]
        0 365).latestDate = some 0 ∧
    (discoverFootageRange [⟨"c1".toList, "Cam".toList, some (-172800)⟩]
        0 365).daysWithFootage = 3 ∧
    (discoverFootageRange [⟨"c1".toList, "Cam".toList, some (-172800)⟩]
        0 365).capWarning = false :=
  discover_footage_range_spec.2.1
    [⟨"c1".toList, "Cam".toList, some (-172800)⟩] 0 365 3
    (List.cons_ne_nil _ _)
    (fun i hi => by interval_cases i <;> decide)
    (by decide) (by omega)

/-! ## DailyMergeWriter and IdempotencyLedger (transcript_merger.py)

Python strings are `List Char`; a file's content is the raw written string.
`splitLines` models the line iteration of the scan: Python's text-mode read
performs universal-newline translation (`\r\n` and `\r` become `\n`), so here
both `\n` and `\r` separate lines; for `\r\n` this yields one extra empty
piece compared to Python, which the marker scan ignores (an empty line is
never a marker line), so the scanned identifier multiset is unchanged.
Datetimes carry the calendar fields used by the `strftime` formats; values
are in-range (months 1-12 etc.), and the two-digit fields are below 100 so
`pad2` matches `%m/%d/%H/%M/%S` zero-padding exactly. -/

/-- Python whitespace for `str.strip()` (space, tab, LF, CR, VT, FF). -/
def pyIsSpace (c : Char) : Bool :=
  c == ' ' || c == '\t' || c == '\n' || c == '\r' ||
    c == Char.ofNat 11 || c == Char.ofNat 12

/-- `str.lstrip()`. -/
def lstrip (s : Str) : Str := s.dropWhile pyIsSpace

/-- `str.rstrip()`. -/
def rstrip (s : Str) : Str := (s.reverse.dropWhile pyIsSpace).reverse

/-- `str.strip()`. -/
def pyStrip (s : Str) : Str := rstrip (lstrip s)

/-- `str.removeprefix(p)`. -/
def removePre (p s : Str) : Str := if p.isPrefixOf s then s.drop p.length else s

/-- `str.removesuffix(p)`. -/
def removeSuf (p s : Str) : Str :=
  if p.isSuffixOf s then s.take (s.length - p.length) else s

/-- Line separators after universal-newline translation. -/
def isNL (c : Char) : Bool := c == '\n' || c == '\r'

/-- `s` contains no line separator. -/
def noNL (s : Str) : Bool := s.all (fun c => !(isNL c))

/-- Split a file's content into lines (the `for line in f` iteration; the
trailing `\n`-stripped pieces are what `line.strip()` leaves anyway). -/
def splitLines : Str → List Str
  | [] => [[]]
  | c :: rest =>
    let ls := splitLines rest
    if isNL c then [] :: ls else (c :: ls.headD []) :: ls.tail

/-- The marker prefix `<!-- CHUNK:`. -/
def markerPre : Str := "<!-- CHUNK:".toList

/-- The marker suffix `-->`. -/
def markerSuf : Str := "-->".toList

/-- The per-line marker recognizer of `load_processed_chunks`:
`line.strip().startswith('<!-- CHUNK:') and line.strip().endswith('-->')`,
extracting `line.strip().removeprefix('<!-- CHUNK:').removesuffix('-->').strip()`. -/
def lineChunkId (line : Str) : Option Str :=
  let s := pyStrip line
  if markerPre.isPrefixOf s && markerSuf.isSuffixOf s then
    some (pyStrip (removeSuf markerSuf (removePre markerPre s)))
  else none

/-- Result of reading the daily document. -/
inductive FileRead where
  | missing
  | content (s : Str)
  | readErr

/-- `load_processed_chunks`: empty set when the document does not exist, empty
set when any I/O failure occurs while scanning (the `except` branch logs and
returns `set()`), otherwise the identifiers of all marker lines. -/
def loadProcessedChunks : FileRead → List Str
  | .missing => []
  | .readErr => []
  | .content c => (splitLines c).filterMap lineChunkId

/-- The calendar fields of a timezone-aware datetime that the `strftime`
formats consume. -/
structure PyDateTime where
  year : Nat
  month : Nat
  day : Nat
  hour : Nat
  minute : Nat
  second : Nat

/-- The decimal digit character of `n % 10`. -/
def digitChar (n : Nat) : Char :=
  match n % 10 with
  | 0 => '0' | 1 => '1' | 2 => '2' | 3 => '3' | 4 => '4'
  | 5 => '5' | 6 => '6' | 7 => '7' | 8 => '8' | _ => '9'

/-- `%02d` (for values below 100). -/
def pad2 (n : Nat) : Str := [digitChar (n / 10), digitChar n]

/-- `%Y` (four-digit years). -/
def pad4 (n : Nat) : Str :=
  [digitChar (n / 1000), digitChar (n / 100), digitChar (n / 10), digitChar n]

/-- `strftime('%Y-%m-%d')`. -/
def fmtDate (dt : PyDateTime) : Str :=
  pad4 dt.year ++ '-' :: pad2 dt.month ++ '-' :: pad2 dt.day

/-- `strftime('%H:%M:%S')`. -/
def fmtTime (dt : PyDateTime) : Str :=
  pad2 dt.hour ++ ':' :: pad2 dt.minute ++ ':' :: pad2 dt.second

/-- `get_chunk_identifier(camera_name, start_dt)`:
`f"{camera_name}_{start_dt.strftime('%Y-%m-%d_%H:%M:%S')}"`. -/
def getChunkIdentifier (cam : Str) (dt : PyDateTime) : Str :=
  cam ++ '_' :: (fmtDate dt ++ '_' :: fmtTime dt)

/-- Concatenate lines, each terminated by `\n`. -/
def linesCat (ls : List Str) : Str := ls.foldr (fun l acc => l ++ '\n' :: acc) []

/-- First header line: `f"# {date_str} - {camera_name}\n"` (without its `\n`). -/
def headerLine1 (cam : Str) (dt : PyDateTime) : Str :=
  "# ".toList ++ fmtDate dt ++ " - ".toList ++ cam

/-- Second header line: `f"Transcript for camera **{camera_name}** on {date_str}.\n"`. -/
def headerLine2 (cam : Str) (dt : PyDateTime) : Str :=
  "Transcript for camera **".toList ++ cam ++ "** on ".toList ++ fmtDate dt
    ++ ".".toList

/-- The marker line `f"<!-- CHUNK: {chunk_id} -->"`. -/
def markerLine (chunkId : Str) : Str :=
  "<!-- CHUNK: ".toList ++ chunkId ++ " -->".toList

/-- The section heading `f"## {start_time_str} - {end_time_str}"`. -/
def headingLine (sdt edt : PyDateTime) : Str :=
  "## ".toList ++ fmtTime sdt ++ " - ".toList ++ fmtTime edt

/-- The header written on first creation:
`"# {date} - {cam}\n\n"`, `"Transcript for camera **{cam}** on {date}.\n\n"`,
`"---\n\n"` — six newline-terminated lines. -/
def mkHeader (cam : Str) (dt : PyDateTime) : Str :=
  linesCat [headerLine1 cam dt, [], headerLine2 cam dt, [], "---".toList, []]

/-- The appended chunk section: `"<!-- CHUNK: {chunk_id} -->\n\n"`,
`"## {start} - {end}\n\n"`, the stripped transcript text, `"\n\n"`, `"---\n\n"`. -/
def mkSection (chunkId : Str) (sdt edt : PyDateTime) (text : Str) : Str :=
  linesCat [markerLine chunkId, [], headingLine sdt edt, []]
    ++ pyStrip text ++ '\n' :: linesCat [[], "---".toList, []]

/-- `append_transcript_chunk` as a content transformation: the new document
content is the old content (or the fresh header) followed by the new section.
(The temp-file/rename mechanics are modelled separately for the atomicity
claim.) -/
def appendTranscriptChunk (old : Option Str) (chunkId cam : Str)
    (sdt edt : PyDateTime) (text : Str) : Str :=
  (match old with
   | none => mkHeader cam sdt
   | some c => c) ++ mkSection chunkId sdt edt text

/-- The document read used by `merge_transcript_chunk`. -/
def fileReadOfDoc : Option Str → FileRead
  | none => .missing
  | some c => .content c

/-- `merge_transcript_chunk` on a document state (the transcript file is given
as its text, matching the claim's premise that it exists and is readable):
skip when the identifier is already in the scanned set, else append. -/
def mergeTranscriptChunk (doc : Option Str) (cam : Str) (sdt edt : PyDateTime)
    (text : Str) : Bool × Option Str :=
  let chunkId := getChunkIdentifier cam sdt
  if (loadProcessedChunks (fileReadOfDoc doc)).contains chunkId then
    (false, doc)
  else
    (true, some (appendTranscriptChunk doc chunkId cam sdt edt text))

/-- Number of marker lines carrying identifier `id` in a document. -/
def countMarkerLines (content : Str) (id : Str) : Nat :=
  ((splitLines content).filterMap lineChunkId).count id

lemma splitLines_ne_nil (s : Str) : splitLines s ≠ [] := by
  cases s with
  | nil => simp [splitLines]
  | cons c r =>
    simp only [splitLines]
    split <;> simp

lemma splitLines_append_nl {c : Char} (hc : isNL c = true) (a b : Str) :
    splitLines (a ++ c :: b) = splitLines a ++ splitLines b := by
  induction a with
  | nil => simp [splitLines, hc]
  | cons d a' ih =>
    by_cases hd : isNL d
    · simp [splitLines, hd, ih]
    · rcases h : splitLines a' with _ | ⟨ℓ, ls⟩
      · exact absurd h (splitLines_ne_nil a')
      · simp [splitLines, hd, ih, h]

lemma splitLines_of_noNL (s : Str) (h : noNL s = true) : splitLines s = [s] := by
  induction s with
  | nil => simp [splitLines]
  | cons c r ih =>
    simp only [noNL, List.all_cons, Bool.and_eq_true, Bool.not_eq_true'] at h
    have := ih (by simp [noNL, h.2])
    simp [splitLines, h.1, this]

lemma linesCat_append (l1 l2 : List Str) :
    linesCat (l1 ++ l2) = linesCat l1 ++ linesCat l2 := by
  induction l1 with
  | nil => simp [linesCat]
  | cons ℓ t ih => simp [linesCat, List.foldr_cons, List.append_assoc] at ih ⊢; simp [ih]

lemma splitLines_linesCat (ls : List Str) (rest : Str)
    (h : ∀ ℓ ∈ ls, noNL ℓ = true) :
    splitLines (linesCat ls ++ rest) = ls ++ splitLines rest := by
  induction ls with
  | nil => simp [linesCat]
  | cons ℓ t ih =>
    have h1 : linesCat (ℓ :: t) ++ rest = ℓ ++ '\n' :: (linesCat t ++ rest) := by
      simp [linesCat, List.append_assoc]
    rw [h1, splitLines_append_nl (show isNL '\n' = true by decide),
      splitLines_of_noNL ℓ (h ℓ (by simp)), ih (fun x hx => h x (by simp [hx]))]
    simp

lemma dropWhile_append_of_ne_nil {p : Char → Bool} (t u : Str)
    (h : t.dropWhile p ≠ []) :
    (t ++ u).dropWhile p = t.dropWhile p ++ u := by
  induction t with
  | nil => simp at h
  | cons c t' ih =>
    by_cases hc : p c
    · rw [List.cons_append, List.dropWhile_cons, if_pos hc,
        ih (by simpa [List.dropWhile_cons, hc] using h)]
      simp [List.dropWhile_cons, hc]
    · simp [List.dropWhile_cons, hc]

lemma dropWhile_append_of_nil {p : Char → Bool} (t u : Str)
    (h : t.dropWhile p = []) :
    (t ++ u).dropWhile p = u.dropWhile p := by
  induction t with
  | nil => simp
  | cons c t' ih =>
    by_cases hc : p c
    · rw [List.cons_append, List.dropWhile_cons, if_pos hc,
        ih (by simpa [List.dropWhile_cons, hc] using h)]
    · simp [List.dropWhile_cons, hc] at h

lemma rstrip_append_space {c : Char} (hc : pyIsSpace c = true) (s : Str) :
    rstrip (s ++ [c]) = rstrip s := by
  simp [rstrip, List.reverse_append, List.dropWhile_cons, hc]

lemma rstrip_cons_nonspace {c : Char} (hc : pyIsSpace c = false) (s : Str) :
    rstrip (c :: s) = c :: rstrip s := by
  show (List.dropWhile pyIsSpace (c :: s).reverse).reverse = _
  rw [List.reverse_cons]
  rcases h : List.dropWhile pyIsSpace s.reverse with _ | ⟨d, t⟩
  · rw [dropWhile_append_of_nil _ _ h]
    simp [List.dropWhile_cons, hc, rstrip, h]
  · rw [dropWhile_append_of_ne_nil _ _ (by simp [h])]
    simp [rstrip, h]

lemma pyStrip_cons_space {c : Char} (hc : pyIsSpace c = true) (s : Str) :
    pyStrip (c :: s) = pyStrip s := by
  simp [pyStrip, lstrip, List.dropWhile_cons, hc]

lemma pyStrip_append_space {c : Char} (hc : pyIsSpace c = true) (s : Str) :
    pyStrip (s ++ [c]) = pyStrip s := by
  rcases h : lstrip s with _ | ⟨d, t⟩
  · have h2 : lstrip (s ++ [c]) = [] := by
      unfold lstrip at h ⊢
      rw [dropWhile_append_of_nil _ _ h]
      simp [List.dropWhile_cons, hc]
    simp only [pyStrip, h, h2]
  · have h2 : lstrip (s ++ [c]) = lstrip s ++ [c] := by
      unfold lstrip at h ⊢
      exact dropWhile_append_of_ne_nil _ _ (by simp [h])
    simp only [pyStrip, h2]
    exact rstrip_append_space hc _

lemma pyStrip_cons_nonspace {c : Char} (hc : pyIsSpace c = false) (s : Str) :
    pyStrip (c :: s) = c :: rstrip s := by
  simp [pyStrip, lstrip, List.dropWhile_cons, hc]
  exact rstrip_cons_nonspace hc s

lemma rstrip_eq_self (s : Str)
    (hl : ∀ d, s.getLast? = some d → pyIsSpace d = false) : rstrip s = s := by
  rcases h : s.reverse with _ | ⟨d, t⟩
  · have : s = [] := by simpa using congrArg List.reverse h
    simp [this, rstrip]
  · have hd : s.getLast? = some d := by
      rw [← List.head?_reverse, h]; rfl
    show (List.dropWhile pyIsSpace s.reverse).reverse = s
    rw [h, List.dropWhile_cons, if_neg (by simp [hl d hd]), ← h]
    simp

lemma pyStrip_eq_self (s : Str)
    (hh : ∀ c, s.head? = some c → pyIsSpace c = false)
    (hl : ∀ d, s.getLast? = some d → pyIsSpace d = false) : pyStrip s = s := by
  cases s with
  | nil => rfl
  | cons c t =>
    have hc : pyIsSpace c = false := hh c rfl
    unfold pyStrip lstrip
    rw [List.dropWhile_cons, if_neg (by simp [hc])]
    exact rstrip_eq_self _ hl

lemma digitCharFacts (n : Nat) :
    pyIsSpace (digitChar n) = false ∧ isNL (digitChar n) = false ∧
      digitChar n ≠ '<' := by
  have h : n % 10 < 10 := Nat.mod_lt _ (by norm_num)
  unfold digitChar
  generalize hk : n % 10 = k at *
  interval_cases k <;> exact ⟨by decide, by decide, by decide⟩

lemma noNL_append (a b : Str) : noNL (a ++ b) = (noNL a && noNL b) :=
  List.all_append

lemma noNL_pad2 (n : Nat) : noNL (pad2 n) = true := by
  simp [noNL, pad2, (digitCharFacts _).2.1]

lemma noNL_pad4 (n : Nat) : noNL (pad4 n) = true := by
  simp [noNL, pad4, (digitCharFacts _).2.1]

lemma noNL_fmtDate (dt : PyDateTime) : noNL (fmtDate dt) = true := by
  have h4 := noNL_pad4 dt.year
  have hm := noNL_pad2 dt.month
  have hd := noNL_pad2 dt.day
  simp only [noNL] at h4 hm hd
  simp +decide [fmtDate, noNL, h4, hm, hd]

lemma noNL_fmtTime (dt : PyDateTime) : noNL (fmtTime dt) = true := by
  have hh := noNL_pad2 dt.hour
  have hm := noNL_pad2 dt.minute
  have hs := noNL_pad2 dt.second
  simp only [noNL] at hh hm hs
  simp +decide [fmtTime, noNL, hh, hm, hs]

lemma pyStrip_head {c : Char} (hc : pyIsSpace c = false) (s : Str) :
    (pyStrip (c :: s)).head? = some c := by
  rw [pyStrip_cons_nonspace hc]
  rfl

lemma lineChunkId_none_of_head (line : Str)
    (h : ∀ c, (pyStrip line).head? = some c → c ≠ '<') :
    lineChunkId line = none := by
  have hpre : markerPre.isPrefixOf (pyStrip line) = false := by
    cases hx : markerPre.isPrefixOf (pyStrip line) with
    | false => rfl
    | true =>
      exfalso
      rw [List.isPrefixOf_iff_prefix] at hx
      obtain ⟨t, ht⟩ := hx
      have hm : markerPre = '<' :: "!-- CHUNK:".toList := by decide
      rw [hm] at ht
      have hh : (pyStrip line).head? = some '<' := by
        rw [← ht]
        rfl
      exact h '<' hh rfl
  simp [lineChunkId, hpre]

lemma lineChunkId_markerLine (id : Str) (hid : pyStrip id = id) :
    lineChunkId (markerLine id) = some id := by
  have hA : "<!-- CHUNK: ".toList = markerPre ++ [' '] := by decide
  have hB : " -->".toList = ([' '] : Str) ++ markerSuf := by decide
  have hC : " -->".toList = " --".toList ++ ['>'] := by decide
  have hline : markerLine id = markerPre ++ ([' '] ++ (id ++ " -->".toList)) := by
    simp [markerLine, markerPre, List.append_assoc]
  have hline2 : markerLine id = (markerPre ++ ([' '] ++ (id ++ [' ']))) ++ markerSuf := by
    simp [markerLine, markerPre, markerSuf, List.append_assoc]
  have hhead : ∀ c, (markerLine id).head? = some c → pyIsSpace c = false := by
    intro c hc
    have hm : markerLine id = '<' :: ("!-- CHUNK: ".toList ++ (id ++ " -->".toList)) := rfl
    rw [hm] at hc
    simp only [List.head?_cons, Option.some.injEq] at hc
    rw [← hc]
    decide
  have hlast : ∀ d, (markerLine id).getLast? = some d → pyIsSpace d = false := by
    intro d hd
    have hsnoc : markerLine id = ("<!-- CHUNK: ".toList ++ (id ++ " --".toList)) ++ ['>'] := by
      simp only [markerLine]
      rw [hC]
      simp [List.append_assoc]
    rw [hsnoc, List.getLast?_append] at hd
    have h2 : some '>' = some d := hd
    rw [← Option.some.inj h2]
    decide
  have hs : pyStrip (markerLine id) = markerLine id := pyStrip_eq_self _ hhead hlast
  have hpre : markerPre.isPrefixOf (markerLine id) = true := by
    rw [List.isPrefixOf_iff_prefix, hline]
    exact List.prefix_append _ _
  have hsuf : markerSuf.isSuffixOf (markerLine id) = true := by
    rw [List.isSuffixOf_iff_suffix, hline2]
    exact List.suffix_append _ _
  have h1 : removePre markerPre (markerLine id) = [' '] ++ (id ++ " -->".toList) := by
    simp only [removePre, hpre, if_true]
    rw [hline, List.drop_left]
  have h2 : removeSuf markerSuf ([' '] ++ (id ++ " -->".toList)) = [' '] ++ (id ++ [' ']) := by
    have hr : ([' '] : Str) ++ (id ++ " -->".toList) = ([' '] ++ (id ++ [' '])) ++ markerSuf := by
      simp [markerSuf, List.append_assoc]
    have hsf : markerSuf.isSuffixOf ([' '] ++ (id ++ " -->".toList)) = true := by
      rw [List.isSuffixOf_iff_suffix, hr]
      exact List.suffix_append _ _
    simp only [removeSuf, hsf, if_true]
    rw [hr]
    have hlen : (([' '] ++ (id ++ [' '])) ++ markerSuf).length - markerSuf.length
        = ([' '] ++ (id ++ [' '])).length := by
      simp
      omega
    rw [hlen, List.take_left]
  simp only [lineChunkId, hs, hpre, hsuf, Bool.true_and, if_true, h1, h2]
  have hcons : ([' '] : Str) ++ (id ++ [' ']) = ' ' :: (id ++ [' ']) := rfl
  rw [hcons, pyStrip_cons_space (by decide), pyStrip_append_space (by decide), hid]

lemma lineChunkId_headerLine1 (cam : Str) (dt : PyDateTime) :
    lineChunkId (headerLine1 cam dt) = none := by
  apply lineChunkId_none_of_head
  intro c hc
  have hm : headerLine1 cam dt = '#' :: (' ' :: (fmtDate dt ++ (" - ".toList ++ cam))) := rfl
  rw [hm, pyStrip_head (by decide)] at hc
  simp only [Option.some.injEq] at hc
  rw [← hc]
  decide

lemma lineChunkId_headerLine2 (cam : Str) (dt : PyDateTime) :
    lineChunkId (headerLine2 cam dt) = none := by
  apply lineChunkId_none_of_head
  intro c hc
  have hlit : "Transcript for camera **".toList = 'T' :: "ranscript for camera **".toList := by
    decide
  have hm : headerLine2 cam dt =
      'T' :: ("ranscript for camera **".toList ++ (cam ++ ("** on ".toList
        ++ (fmtDate dt ++ ".".toList)))) := by
    simp only [headerLine2, hlit, List.cons_append, List.append_assoc]
  rw [hm, pyStrip_head (by decide)] at hc
  simp only [Option.some.injEq] at hc
  rw [← hc]
  decide

lemma lineChunkId_headingLine (sdt edt : PyDateTime) :
    lineChunkId (headingLine sdt edt) = none := by
  apply lineChunkId_none_of_head
  intro c hc
  have hm : headingLine sdt edt =
      '#' :: ('#' :: (' ' :: (fmtTime sdt ++ (" - ".toList ++ fmtTime edt)))) := rfl
  rw [hm, pyStrip_head (by decide)] at hc
  simp only [Option.some.injEq] at hc
  rw [← hc]
  decide

lemma lineChunkId_nil : lineChunkId [] = none := by decide

lemma lineChunkId_dashes : lineChunkId ['-', '-', '-'] = none := by decide

lemma noNL_headerLine1 (cam : Str) (dt : PyDateTime) (hcam : noNL cam = true) :
    noNL (headerLine1 cam dt) = true := by
  have hfd := noNL_fmtDate dt
  simp only [noNL] at hfd hcam
  simp +decide [headerLine1, noNL, hfd, hcam]

lemma noNL_headerLine2 (cam : Str) (dt : PyDateTime) (hcam : noNL cam = true) :
    noNL (headerLine2 cam dt) = true := by
  have hfd := noNL_fmtDate dt
  simp only [noNL] at hfd hcam
  simp +decide [headerLine2, noNL, hfd, hcam]

lemma noNL_markerLine (id : Str) (hid : noNL id = true) :
    noNL (markerLine id) = true := by
  simp only [noNL] at hid
  simp +decide [markerLine, noNL, hid]

lemma noNL_headingLine (sdt edt : PyDateTime) :
    noNL (headingLine sdt edt) = true := by
  have h1 := noNL_fmtTime sdt
  have h2 := noNL_fmtTime edt
  simp only [noNL] at h1 h2
  simp +decide [headingLine, noNL, h1, h2]

lemma splitLines_doc (cam text id : Str) (sdt edt : PyDateTime)
    (hid_nl : noNL id = true) (hcam_nl : noNL cam = true) :
    splitLines (mkHeader cam sdt ++ mkSection id sdt edt text) =
      [headerLine1 cam sdt, [], headerLine2 cam sdt, [], "---".toList, [],
        markerLine id, [], headingLine sdt edt, []]
      ++ (splitLines (pyStrip text) ++ [[], "---".toList, [], []]) := by
  have hdoc : mkHeader cam sdt ++ mkSection id sdt edt text =
      linesCat [headerLine1 cam sdt, [], headerLine2 cam sdt, [], "---".toList, [],
        markerLine id, [], headingLine sdt edt, []]
      ++ (pyStrip text ++ '\n' :: linesCat [[], "---".toList, []]) := by
    have hsplit : ([headerLine1 cam sdt, [], headerLine2 cam sdt, [], "---".toList, [],
        markerLine id, [], headingLine sdt edt, []] : List Str) =
        [headerLine1 cam sdt, [], headerLine2 cam sdt, [], "---".toList, []] ++
        [markerLine id, [], headingLine sdt edt, []] := rfl
    rw [hsplit, linesCat_append]
    simp [mkHeader, mkSection, List.append_assoc]
  have hno : ∀ ℓ ∈ ([headerLine1 cam sdt, [], headerLine2 cam sdt, [], "---".toList, [],
      markerLine id, [], headingLine sdt edt, []] : List Str), noNL ℓ = true := by
    intro ℓ hℓ
    simp only [List.mem_cons, List.not_mem_nil, or_false] at hℓ
    rcases hℓ with rfl | rfl | rfl | rfl | rfl | rfl | rfl | rfl | rfl | rfl
    · exact noNL_headerLine1 cam sdt hcam_nl
    · decide
    · exact noNL_headerLine2 cam sdt hcam_nl
    · decide
    · decide
    · decide
    · exact noNL_markerLine id hid_nl
    · decide
    · exact noNL_headingLine sdt edt
    · decide
  rw [hdoc, splitLines_linesCat _ _ hno,
    splitLines_append_nl (show isNL '\n' = true by decide)]
  have hconc : splitLines (linesCat [[], "---".toList, []]) = [[], "---".toList, [], []] := by
    decide
  rw [hconc]

lemma loadProcessedChunks_doc (cam text id : Str) (sdt edt : PyDateTime)
    (hid_strip : pyStrip id = id) (hid_nl : noNL id = true)
    (hcam_nl : noNL cam = true) :
    loadProcessedChunks (.content (mkHeader cam sdt ++ mkSection id sdt edt text)) =
      id :: (splitLines (pyStrip text)).filterMap lineChunkId := by
  show (splitLines (mkHeader cam sdt ++ mkSection id sdt edt text)).filterMap
    lineChunkId = _
  rw [splitLines_doc cam text id sdt edt hid_nl hcam_nl,
    List.filterMap_append, List.filterMap_append]
  rw [show (([headerLine1 cam sdt, [], headerLine2 cam sdt, [], "---".toList, [],
      markerLine id, [], headingLine sdt edt, []] : List Str)).filterMap lineChunkId
      = [id] from ?_]
  · rw [show (([[], "---".toList, [], []] : List Str)).filterMap lineChunkId = []
      from by decide]
    simp
  · simp [List.filterMap_cons, lineChunkId_headerLine1, lineChunkId_headerLine2,
      lineChunkId_headingLine, lineChunkId_markerLine id hid_strip,
      lineChunkId_nil, lineChunkId_dashes]

/-- C1 (amended): for every camera name whose derived chunk identifier is
strip-invariant and free of line separators, and every transcript text none of
whose (stripped) lines is itself a marker line carrying that identifier,
merging the same `(camera_name, start, end, text)` twice into an initially
absent daily document returns `true` then `false`, leaves the document
unchanged by the second call, the marker written by `append_transcript_chunk`
is recognized by a subsequent `load_processed_chunks` scan (the grammar
round-trips), and the document contains exactly one marker line carrying
`ChunkIdentifier(camera_name, start)`. -/
theorem merge_idempotent (cam text : Str) (sdt edt : PyDateTime)
    (hid_strip : pyStrip (getChunkIdentifier cam sdt) = getChunkIdentifier cam sdt)
    (hid_nl : noNL (getChunkIdentifier cam sdt) = true)
    (htext : ∀ ℓ ∈ splitLines (pyStrip text),
      lineChunkId ℓ ≠ some (getChunkIdentifier cam sdt)) :
    (mergeTranscriptChunk none cam sdt edt text).1 = true ∧
    (mergeTranscriptChunk (mergeTranscriptChunk none cam sdt edt text).2
      cam sdt edt text).1 = false ∧
    (mergeTranscriptChunk (mergeTranscriptChunk none cam sdt edt text).2
      cam sdt edt text).2 = (mergeTranscriptChunk none cam sdt edt text).2 ∧
    getChunkIdentifier cam sdt ∈ loadProcessedChunks
      (fileReadOfDoc (mergeTranscriptChunk none cam sdt edt text).2) ∧
    countMarkerLines ((mergeTranscriptChunk none cam sdt edt text).2.getD [])
      (getChunkIdentifier cam sdt) = 1 := by
  have hcam_nl : noNL cam = true := by
    have h := hid_nl
    simp only [getChunkIdentifier, noNL, List.all_append, Bool.and_eq_true] at h
    exact h.1
  have hm1 : mergeTranscriptChunk none cam sdt edt text =
      (true, some (mkHeader cam sdt
        ++ mkSection (getChunkIdentifier cam sdt) sdt edt text)) := rfl
  have hload := loadProcessedChunks_doc cam text (getChunkIdentifier cam sdt)
    sdt edt hid_strip hid_nl hcam_nl
  have hmem : getChunkIdentifier cam sdt ∈ loadProcessedChunks
      (.content (mkHeader cam sdt
        ++ mkSection (getChunkIdentifier cam sdt) sdt edt text)) := by
    rw [hload]
    exact List.mem_cons_self _ _
  have hcontains : (loadProcessedChunks (fileReadOfDoc (some (mkHeader cam sdt
      ++ mkSection (getChunkIdentifier cam sdt) sdt edt text)))).contains
      (getChunkIdentifier cam sdt) = true := by
    show List.elem _ _ = true
    exact List.elem_iff.mpr hmem
  have hm2 : mergeTranscriptChunk (some (mkHeader cam sdt
      ++ mkSection (getChunkIdentifier cam sdt) sdt edt text)) cam sdt edt text =
      (false, some (mkHeader cam sdt
        ++ mkSection (getChunkIdentifier cam sdt) sdt edt text)) := by
    simp only [mergeTranscriptChunk, hcontains]
    simp
  have hcount : countMarkerLines (mkHeader cam sdt
      ++ mkSection (getChunkIdentifier cam sdt) sdt edt text)
      (getChunkIdentifier cam sdt) = 1 := by
    show ((splitLines _).filterMap lineChunkId).count _ = 1
    rw [show (splitLines (mkHeader cam sdt
        ++ mkSection (getChunkIdentifier cam sdt) sdt edt text)).filterMap
        lineChunkId = loadProcessedChunks (.content (mkHeader cam sdt
        ++ mkSection (getChunkIdentifier cam sdt) sdt edt text)) from rfl, hload,
      List.count_cons]
    simp only [BEq.refl, if_true]
    have hz : ((splitLines (pyStrip text)).filterMap lineChunkId).count
        (getChunkIdentifier cam sdt) = 0 := by
      rw [List.count_eq_zero]
      intro hmem2
      rw [List.mem_filterMap] at hmem2
      obtain ⟨ℓ, hℓ, hval⟩ := hmem2
      exact htext ℓ hℓ hval
    rw [hz]
  refine ⟨by simp [hm1], ?_, ?_, ?_, ?_⟩
  · simp [hm1, hm2]
  · simp [hm1, hm2]
  · simpa [hm1, fileReadOfDoc] using hmem
  · simpa [hm1] using hcount

/-- Witness for C1 at the concrete camera `Front Door`, a plain transcript
text, and the 14:00-15:00 chunk of 2024-01-15. -/
theorem merge_idempotent_witness :
    (mergeTranscriptChunk none "Front Door".toList ⟨2024, 1, 15, 14, 0, 0⟩
      ⟨2024, 1, 15, 15, 0, 0⟩ "Hello world.".toList).1 = true ∧
    (mergeTranscriptChunk (mergeTranscriptChunk none "Front Door".toList
      ⟨2024, 1, 15, 14, 0, 0⟩ ⟨2024, 1, 15, 15, 0, 0⟩ "Hello world.".toList).2
      "Front Door".toList ⟨2024, 1, 15, 14, 0, 0⟩ ⟨2024, 1, 15, 15, 0, 0⟩
      "Hello world.".toList).1 = false ∧
    (mergeTranscriptChunk (mergeTranscriptChunk none "Front Door".toList
      ⟨2024, 1, 15, 14, 0, 0⟩ ⟨2024, 1, 15, 15, 0, 0⟩ "Hello world.".toList).2
      "Front Door".toList ⟨2024, 1, 15, 14, 0, 0⟩ ⟨2024, 1, 15, 15, 0, 0⟩
      "Hello world.".toList).2 =
      (mergeTranscriptChunk none "Front Door".toList ⟨2024, 1, 15, 14, 0, 0⟩
        ⟨2024, 1, 15, 15, 0, 0⟩ "Hello world.".toList).2 ∧
    getChunkIdentifier "Front Door".toList ⟨2024, 1, 15, 14, 0, 0⟩ ∈
      loadProcessedChunks (fileReadOfDoc (mergeTranscriptChunk none
        "Front Door".toList ⟨2024, 1, 15, 14, 0, 0⟩ ⟨2024, 1, 15, 15, 0, 0⟩
        "Hello world.".toList).2) ∧
    countMarkerLines ((mergeTranscriptChunk none "Front Door".toList
      ⟨2024, 1, 15, 14, 0, 0⟩ ⟨2024, 1, 15, 15, 0, 0⟩
      "Hello world.".toList).2.getD [])
      (getChunkIdentifier "Front Door".toList ⟨2024, 1, 15, 14, 0, 0⟩) = 1 :=
  merge_idempotent "Front Door".toList "Hello world.".toList
    ⟨2024, 1, 15, 14, 0, 0⟩ ⟨2024, 1, 15, 15, 0, 0⟩
    (by decide) (by decide) (by decide)

/-- C1 counterexample: the claim as stated fails for a transcript text that
itself contains the chunk's marker line.  With camera `A`, chunk start
2024-01-15 14:00:00 and text `<!-- CHUNK: A_2024-01-15_14:00:00 -->`, the
first merge returns `true` but the resulting document contains the marker
line carrying that identifier twice, not exactly once. -/
theorem merge_idempotent_counterexample :
    (mergeTranscriptChunk none "A".toList ⟨2024, 1, 15, 14, 0, 0⟩
      ⟨2024, 1, 15, 15, 0, 0⟩
      "<!-- CHUNK: A_2024-01-15_14:00:00 -->".toList).1 = true ∧
    countMarkerLines ((mergeTranscriptChunk none "A".toList
      ⟨2024, 1, 15, 14, 0, 0⟩ ⟨2024, 1, 15, 15, 0, 0⟩
      "<!-- CHUNK: A_2024-01-15_14:00:00 -->".toList).2.getD [])
      (getChunkIdentifier "A".toList ⟨2024, 1, 15, 14, 0, 0⟩) = 2 :=
  ⟨by decide, by decide⟩

/-! ## Atomicity of `append_transcript_chunk` (transcript_merger.py)

The write path is modelled as the sequence of filesystem operations the
source performs on the target document's directory: create the temp file
(`tempfile.mkstemp`), copy the existing document into it (when the target
exists), append the new section (with the header when the target is new),
and atomically rename the temp file onto the target (`os.replace`).  Fault
injection `failAt = some k` raises after the first `k` operations completed;
the `except` handler closes the descriptor, removes the temp file if present,
and re-raises. -/

/-- Target document and temp file in the target's directory. -/
structure AppendFS where
  target : Option Str
  temp : Option Str
deriving DecidableEq

/-- One filesystem operation of `append_transcript_chunk`. -/
inductive FsOp where
  | createTemp
  | writeTemp (s : Str)
  | renameTempToTarget
  | removeTempIfExists
deriving DecidableEq

/-- Effect of one operation on the directory state. -/
def applyOp (st : AppendFS) : FsOp → AppendFS
  | .createTemp => { st with temp := some [] }
  | .writeTemp s => { st with temp := st.temp.map (· ++ s) }
  | .renameTempToTarget =>
    match st.temp with
    | some t => { target := some t, temp := none }
    | none => st
  | .removeTempIfExists => { st with temp := none }

/-- The operation sequence of a full run: copy-then-append when the target
exists, header-plus-section into the fresh temp file otherwise, then the
atomic rename. -/
def appendOps (existing : Option Str) (chunkId cam : Str) (sdt edt : PyDateTime)
    (text : Str) : List FsOp :=
  match existing with
  | some c => [.createTemp, .writeTemp c,
      .writeTemp (mkSection chunkId sdt edt text), .renameTempToTarget]
  | none => [.createTemp,
      .writeTemp (mkHeader cam sdt ++ mkSection chunkId sdt edt text),
      .renameTempToTarget]

/-- `append_transcript_chunk` with fault injection.  The Bool records whether
the exception was re-raised. -/
def appendTranscriptChunkRun (st : AppendFS) (chunkId cam : Str)
    (sdt edt : PyDateTime) (text : Str) (failAt : Option Nat) : Bool × AppendFS :=
  let ops := appendOps st.target chunkId cam sdt edt text
  match failAt with
  | none => (false, ops.foldl applyOp st)
  | some k => (true, applyOp ((ops.take k).foldl applyOp st) .removeTempIfExists)

/-- C2: whichever operation of the copy-to-temp / append / rename sequence
raises (including the rename itself), `append_transcript_chunk` re-raises,
the target document's content is exactly what it was before the call, and no
temporary file remains in the directory; on the exception-free run the target
is replaced in one step by the fully written content (old content, or header,
plus the new section) and the temp file is gone. -/
theorem append_transcript_chunk_atomic (st : AppendFS) (chunkId cam : Str)
    (sdt edt : PyDateTime) (text : Str) :
    (∀ k, k < (appendOps st.target chunkId cam sdt edt text).length →
      (appendTranscriptChunkRun st chunkId cam sdt edt text (some k)).1 = true ∧
      (appendTranscriptChunkRun st chunkId cam sdt edt text (some k)).2.target
        = st.target ∧
      (appendTranscriptChunkRun st chunkId cam sdt edt text (some k)).2.temp
        = none) ∧
    ((appendTranscriptChunkRun st chunkId cam sdt edt text none).1 = false ∧
     (appendTranscriptChunkRun st chunkId cam sdt edt text none).2.target =
       some (appendTranscriptChunk st.target chunkId cam sdt edt text) ∧
     (appendTranscriptChunkRun st chunkId cam sdt edt text none).2.temp
       = none) := by
  obtain ⟨t, p⟩ := st
  rcases t with _ | c
  · constructor
    · intro k hk
      simp only [appendOps, List.length_cons, List.length_nil] at hk
      interval_cases k <;>
        simp [appendTranscriptChunkRun, appendOps, applyOp]
    · refine ⟨rfl, ?_, ?_⟩ <;>
        simp [appendTranscriptChunkRun, appendOps, applyOp,
          appendTranscriptChunk]
  · constructor
    · intro k hk
      simp only [appendOps, List.length_cons, List.length_nil] at hk
      interval_cases k <;>
        simp [appendTranscriptChunkRun, appendOps, applyOp]
    · refine ⟨rfl, ?_, ?_⟩ <;>
        simp [appendTranscriptChunkRun, appendOps, applyOp,
          appendTranscriptChunk]

/-- Witness for C2: an existing one-line document, failure injected at the
rename step (the last of the four operations). -/
theorem append_transcript_chunk_atomic_witness :
    (appendTranscriptChunkRun ⟨some "old".toList, none⟩ "id".toList
      "Cam".toList ⟨2024, 1, 15, 14, 0, 0⟩ ⟨2024, 1, 15, 15, 0, 0⟩
      "text".toList (some 3)).1 = true ∧
    (appendTranscriptChunkRun ⟨some "old".toList, none⟩ "id".toList
      "Cam".toList ⟨2024, 1, 15, 14, 0, 0⟩ ⟨2024, 1, 15, 15, 0, 0⟩
      "text".toList (some 3)).2.target = some "old".toList ∧
    (appendTranscriptChunkRun ⟨some "old".toList, none⟩ "id".toList
      "Cam".toList ⟨2024, 1, 15, 14, 0, 0⟩ ⟨2024, 1, 15, 15, 0, 0⟩
      "text".toList (some 3)).2.temp = none :=
  (append_transcript_chunk_atomic ⟨some "old".toList, none⟩ "id".toList
    "Cam".toList ⟨2024, 1, 15, 14, 0, 0⟩ ⟨2024, 1, 15, 15, 0, 0⟩
    "text".toList).1 3 (by decide)

/-! ## Ledger path resolution and its filesystem effect (transcript_merger.py)

`get_daily_transcript_path` performs `year_dir.mkdir(parents=True,
exist_ok=True)` before returning the path: when the year directory already
exists the call is a no-op; when it is absent it is created, which raises on a
read-only filesystem.  Results are `(Option value, state)`; `none` models a
raised exception. -/

/-- The transcripts root: its directories, whether it is writable, and the
content of each file path. -/
structure TranscriptsFS where
  dirs : List Str
  readOnly : Bool
  file : Str → FileRead

/-- `get_daily_transcript_path`: resolves
`<root>/<year>/<date>_<camera>.md`, creating the year directory if needed. -/
def getDailyTranscriptPath (fs : TranscriptsFS) (cam : Str) (dt : PyDateTime) :
    Option Str × TranscriptsFS :=
  let yearDir := pad4 dt.year
  let path := yearDir ++ '/' :: (fmtDate dt ++ '_' :: (cam ++ ".md".toList))
  if yearDir ∈ fs.dirs then (some path, fs)
  else if fs.readOnly then (none, fs)
  else (some path, { fs with dirs := yearDir :: fs.dirs })

/-- `is_chunk_already_processed`: resolve the daily document path, scan it,
and test membership of the chunk identifier. -/
def isChunkAlreadyProcessed (fs : TranscriptsFS) (cam : Str) (sdt : PyDateTime) :
    Option Bool × TranscriptsFS :=
  match getDailyTranscriptPath fs cam sdt with
  | (none, fs') => (none, fs')
  | (some path, fs') =>
    (some ((loadProcessedChunks (fs'.file path)).contains
      (getChunkIdentifier cam sdt)), fs')

/-- `merge_transcript_chunk` acting on the filesystem: path resolution (with
its mkdir side effect), duplicate check, and the atomic append.  A document
that exists but cannot be read yields an empty processed-set (fail open), so
the merge proceeds to `append_transcript_chunk`, whose copy of the existing
document then raises. -/
def writeFile (fs : TranscriptsFS) (path : Str) (r : FileRead) : TranscriptsFS :=
  { fs with file := fun p => if p = path then r else fs.file p }

def mergeTranscriptChunkFS (fs : TranscriptsFS) (cam : Str) (sdt edt : PyDateTime)
    (text : Str) : Option Bool × TranscriptsFS :=
  match getDailyTranscriptPath fs cam sdt with
  | (none, fs') => (none, fs')
  | (some path, fs') =>
    match fs'.file path with
    | .readErr => (none, fs')
    | .missing =>
      let r := mergeTranscriptChunk none cam sdt edt text
      (some r.1, writeFile fs' path
        (match r.2 with | some c => .content c | none => .missing))
    | .content c =>
      let r := mergeTranscriptChunk (some c) cam sdt edt text
      if r.1 then
        (some true, writeFile fs' path
          (match r.2 with | some c2 => .content c2 | none => .content c))
      else (some false, fs')

lemma isChunkAlreadyProcessed_snd (fs : TranscriptsFS) (cam : Str)
    (sdt : PyDateTime) :
    (isChunkAlreadyProcessed fs cam sdt).2 = (getDailyTranscriptPath fs cam sdt).2 := by
  unfold isChunkAlreadyProcessed
  rcases h : getDailyTranscriptPath fs cam sdt with ⟨o, fs2⟩
  rcases o with _ | path <;> simp

lemma mergeTranscriptChunkFS_dirs (fs : TranscriptsFS) (cam : Str)
    (sdt edt : PyDateTime) (text : Str) :
    (mergeTranscriptChunkFS fs cam sdt edt text).2.dirs =
      (getDailyTranscriptPath fs cam sdt).2.dirs := by
  unfold mergeTranscriptChunkFS
  rcases h : getDailyTranscriptPath fs cam sdt with ⟨o, fs2⟩
  rcases o with _ | path
  · simp
  · rcases hf : fs2.file path with _ | c | _
    · simp [hf, writeFile]
    · by_cases hflag : (mergeTranscriptChunk (some c) cam sdt edt text).1 <;>
        simp [hf, hflag, writeFile]
    · simp [hf]

lemma getDailyTranscriptPath_dirs (fs : TranscriptsFS) (cam : Str)
    (dt : PyDateTime) (hro : fs.readOnly = false) :
    pad4 dt.year ∈ (getDailyTranscriptPath fs cam dt).2.dirs ∧
    (pad4 dt.year ∉ fs.dirs →
      (getDailyTranscriptPath fs cam dt).2.dirs = pad4 dt.year :: fs.dirs) := by
  by_cases hmem : pad4 dt.year ∈ fs.dirs
  · refine ⟨by simp [getDailyTranscriptPath, hmem],
      fun hab => absurd hmem hab⟩
  · refine ⟨by simp [getDailyTranscriptPath, hmem, hro], fun _ => by
      simp [getDailyTranscriptPath, hmem, hro]⟩

/-- C7: the ledger never raises while scanning — `load_processed_chunks`
returns the empty set both for a missing document and on an I/O failure (fail
open toward re-processing); consequently, when the resolved daily document
does not exist `is_chunk_already_processed` returns `false`, and when the
document cannot be read it also returns `false` (re-processing, never a
silent skip). -/
theorem ledger_error_behavior :
    (loadProcessedChunks .readErr = [] ∧ loadProcessedChunks .missing = []) ∧
    (∀ (fs : TranscriptsFS) (cam : Str) (sdt : PyDateTime) (path : Str)
      (fs' : TranscriptsFS),
      getDailyTranscriptPath fs cam sdt = (some path, fs') →
      fs'.file path = .missing →
      isChunkAlreadyProcessed fs cam sdt = (some false, fs')) ∧
    (∀ (fs : TranscriptsFS) (cam : Str) (sdt : PyDateTime) (path : Str)
      (fs' : TranscriptsFS),
      getDailyTranscriptPath fs cam sdt = (some path, fs') →
      fs'.file path = .readErr →
      isChunkAlreadyProcessed fs cam sdt = (some false, fs')) := by
  refine ⟨⟨rfl, rfl⟩, ?_, ?_⟩ <;>
  · intro fs cam sdt path fs' hres hfile
    simp [isChunkAlreadyProcessed, hres, hfile, loadProcessedChunks,
      List.contains]

/-- The transcripts root used in the ledger witnesses: the year directory
exists, the root is writable, and no document exists. -/
def ledgerFS : TranscriptsFS :=
  { dirs := ["2024".toList], readOnly := false, file := fun _ => .missing }

/-- Witness for C7: with the 2024 directory present and no document on disk,
the ledger reports the chunk as not processed. -/
theorem ledger_error_behavior_witness :
    isChunkAlreadyProcessed ledgerFS "Front Door".toList
      ⟨2024, 1, 15, 14, 0, 0⟩ = (some false, ledgerFS) :=
  ledger_error_behavior.2.1 ledgerFS "Front Door".toList
    ⟨2024, 1, 15, 14, 0, 0⟩
    (pad4 (2024 : Nat) ++ '/' :: (fmtDate ⟨2024, 1, 15, 14, 0, 0⟩ ++ '_' ::
      ("Front Door".toList ++ ".md".toList)))
    ledgerFS rfl rfl

/-- C10: the idempotency check itself mutates the filesystem.  On a writable
root, every `is_chunk_already_processed` call (and every
`merge_transcript_chunk` call) leaves the `<root>/<year>` directory in
existence, creating it when absent — even for a pure lookup of a
never-processed chunk; on a read-only root with the year directory absent,
the check raises instead of returning. -/
theorem ledger_mkdir_side_effect :
    (∀ (fs : TranscriptsFS) (cam : Str) (sdt : PyDateTime),
      fs.readOnly = false →
      pad4 sdt.year ∈ (isChunkAlreadyProcessed fs cam sdt).2.dirs ∧
      (pad4 sdt.year ∉ fs.dirs →
        (isChunkAlreadyProcessed fs cam sdt).2.dirs = pad4 sdt.year :: fs.dirs)) ∧
    (∀ (fs : TranscriptsFS) (cam : Str) (sdt edt : PyDateTime) (text : Str),
      fs.readOnly = false →
      pad4 sdt.year ∈ (mergeTranscriptChunkFS fs cam sdt edt text).2.dirs) ∧
    (∀ (fs : TranscriptsFS) (cam : Str) (sdt : PyDateTime),
      fs.readOnly = true → pad4 sdt.year ∉ fs.dirs →
      (isChunkAlreadyProcessed fs cam sdt).1 = none) := by
  refine ⟨?_, ?_, ?_⟩
  · intro fs cam sdt hro
    rw [isChunkAlreadyProcessed_snd]
    exact getDailyTranscriptPath_dirs fs cam sdt hro
  · intro fs cam sdt edt text hro
    rw [mergeTranscriptChunkFS_dirs]
    exact (getDailyTranscriptPath_dirs fs cam sdt hro).1
  · intro fs cam sdt hro hmem
    simp [isChunkAlreadyProcessed, getDailyTranscriptPath, hmem, hro]

/-- Witness for C10: a writable, empty transcripts root; the pure lookup
returns "not processed" yet leaves the 2024 year directory behind. -/
theorem ledger_mkdir_side_effect_witness :
    pad4 ((⟨2024, 1, 15, 14, 0, 0⟩ : PyDateTime)).year ∈
      (isChunkAlreadyProcessed
        ⟨[], false, fun _ => .missing⟩ "Front Door".toList
        ⟨2024, 1, 15, 14, 0, 0⟩).2.dirs ∧
    (isChunkAlreadyProcessed ⟨[], false, fun _ => .missing⟩
      "Front Door".toList ⟨2024, 1, 15, 14, 0, 0⟩).2.dirs =
      pad4 ((⟨2024, 1, 15, 14, 0, 0⟩ : PyDateTime)).year :: [] :=
  ⟨(ledger_mkdir_side_effect.1 ⟨[], false, fun _ => .missing⟩
      "Front Door".toList ⟨2024, 1, 15, 14, 0, 0⟩ rfl).1,
   (ledger_mkdir_side_effect.1 ⟨[], false, fun _ => .missing⟩
      "Front Door".toList ⟨2024, 1, 15, 14, 0, 0⟩ rfl).2
      (by simp)⟩

end UbvTranscribe
